import Mathlib

/-!
Shallow embedding of the MCP Plugin Marketplace core
(src/mcp_plugin_marketplace/marketplace.py, plus the search command of
src/mcp_plugin_marketplace/cli.py).

Modelling conventions:
* The content of the install root (self.install_dir) is an association list
  of named filesystem entries; listing order models the (unspecified)
  filesystem iteration order.
* A file on disk is modelled by what the program can do with it: the result
  of json.load on its text (none models a json.JSONDecodeError) and the
  outcome of loading it as a Python module and calling run_test.
* Plugin and entry names are single path components other than "", ".",
  "..". The empty string, which pathlib path joining collapses (so that
  install_dir / "" is install_dir itself), is modelled explicitly where the
  code can receive it (uninstall, test). Names containing path separators
  are outside the model.
* Machine-level failures (permissions, unicode decoding, symlinks) are
  outside the model; each MarketError constructor notes the concrete Python
  exception it stands for.
-/

set_option autoImplicit false

/-- JSON values as produced by a successful json.load. An obj models a
parsed Python dict, so its keys are unique and lookup is first-match. -/
inductive Json where
  | null : Json
  | bool (b : Bool) : Json
  | num (n : Int) : Json
  | str (s : String) : Json
  | arr (elems : List Json) : Json
  | obj (fields : List (String × Json)) : Json

/-- dict.get key default on a parsed JSON object, as the code uses for
manifest fields: the stored value is returned even when it is JSON null. -/
def Json.getD (fields : List (String × Json)) (key : String) (dflt : Json) : Json :=
  match fields.find? (fun kv => kv.1 == key) with
  | some kv => kv.2
  | none => dflt

/-- Runtime values a plugin run_test entry point can return; enough of
Python to express the bool() coercion at line 177 of marketplace.py. -/
inductive PyValue where
  | vNone : PyValue
  | vBool (b : Bool) : PyValue
  | vInt (n : Int) : PyValue
  | vStr (s : String) : PyValue
  deriving DecidableEq, Repr

/-- Python bool() truthiness on the modelled values. -/
def pyBool : PyValue → Bool
  | .vNone => false
  | .vBool b => b
  | .vInt n => n != 0
  | .vStr s => s != ""

/-- Outcome of treating a file as a Python module: exec_module raises, the
module lacks a run_test attribute, run_test() itself raises, or run_test()
returns a value. -/
inductive PyOutcome where
  | loadFails : PyOutcome
  | noRunTest : PyOutcome
  | runTestRaises : PyOutcome
  | returns (v : PyValue) : PyOutcome
  deriving DecidableEq, Repr

/-- Observable behaviour of a file on disk: what json.load yields on its
text (none models json.JSONDecodeError) and what loading it as a module
does. -/
structure FileData where
  asJson : Option Json
  py : PyOutcome

/-- Filesystem tree: a regular file or a directory of named entries. -/
inductive FSTree where
  | file (d : FileData) : FSTree
  | dir (children : List (String × FSTree)) : FSTree

/-- Path.is_dir on an existing entry. -/
def FSTree.isDir : FSTree → Bool
  | .file _ => false
  | .dir _ => true

/-- Children of a directory entry (and the empty list on a file, where the
code never iterates). -/
def FSTree.childrenD : FSTree → List (String × FSTree)
  | .file _ => []
  | .dir cs => cs

/-- Lookup of a directory entry by name; exact, case-sensitive match. -/
def lookupChild : List (String × FSTree) → String → Option FSTree
  | [], _ => none
  | e :: rest, name => if e.1 = name then some e.2 else lookupChild rest name

/-- shutil.rmtree of the named entry (a no-op when it is absent). -/
def eraseChild (cs : List (String × FSTree)) (name : String) : List (String × FSTree) :=
  cs.filter (fun e => e.1 != name)

/-- Placement of a fresh entry after any same-named entry was removed, as
done by copytree and shutil.move toward a non-existing destination. -/
def setChild (cs : List (String × FSTree)) (name : String) (t : FSTree) :
    List (String × FSTree) :=
  eraseChild cs name ++ [(name, t)]

/-- Number of entries carrying the given name. -/
def countChild (cs : List (String × FSTree)) (name : String) : Nat :=
  (cs.filter (fun e => e.1 == name)).length

/-- PluginMetadata dataclass of marketplace.py. The code never checks that
manifest fields are strings, so the fields hold raw JSON values; path is
the name of the installed directory under the install root. -/
structure PluginMetadata where
  name : Json
  version : Json
  description : Json
  path : String

/-- Errors the modelled operations can raise; each constructor records the
Python exception it stands for. -/
inductive MarketError where
  /-- FileNotFoundError, marketplace.py line 104: source path missing. -/
  | sourceNotFound : MarketError
  /-- ValueError, line 132: source neither a directory nor a zip file. -/
  | invalidSource : MarketError
  /-- ValueError, line 136: no manifest.json at the plugin root. -/
  | invalidPlugin : MarketError
  /-- json.JSONDecodeError escaping from line 138 (install does not catch it). -/
  | manifestDecode : MarketError
  /-- AttributeError from meta.get at lines 140-142 when the manifest is not a dict. -/
  | manifestNotDict : MarketError
  /-- IsADirectoryError from open at line 137 when manifest.json is a directory. -/
  | manifestIsDir : MarketError
  /-- NotADirectoryError from shutil.rmtree of a plain file (line 121 or 128). -/
  | destBlockedByFile : MarketError
  /-- FileExistsError from tmpdir.mkdir at line 110 over a plain file. -/
  | scratchBlockedByFile : MarketError
  /-- FileNotFoundError from shutil.move at line 122 after its source was removed. -/
  | moveSourceMissing : MarketError
  /-- ValueError, line 158: plugin directory missing. -/
  | notInstalled : MarketError
  /-- ValueError, line 162: no plugin.py in the plugin directory. -/
  | missingEntryPoint : MarketError
  /-- ImportError, line 173, or any exception from exec_module at line 171. -/
  | loadError : MarketError
  /-- AttributeError, line 175: module has no run_test. -/
  | contractViolation : MarketError
  /-- Exception raised by run_test() itself at line 176. -/
  | pluginRaised : MarketError
  /-- AttributeError from str.lower on a non-string catalogue field (cli.py line 103). -/
  | lowerOnNonString : MarketError
  deriving DecidableEq, Repr

/-- Install source, classified the way marketplace.py lines 102-132 probes
the path: missing, an existing regular file whose name ends in ".zip"
(case-insensitively) and is a well-formed archive given by its extracted
entries, an existing directory (whose final path component is its name), or
any other existing regular file. Directories named *.zip and corrupt
archives, on which zipfile raises, are outside the model. -/
inductive Source where
  | missing : Source
  | zipArchive (stem : String) (entries : List (String × FSTree)) : Source
  | directory (name : String) (children : List (String × FSTree)) : Source
  | plainFile (name : String) : Source

namespace Marketplace

/-- Models Marketplace._load_catalogue (lines 58-67). The catalogue file is
given as none when the path does not exist, some none when it exists but
json.load raises JSONDecodeError, and some (some j) when json.load yields
j. self.catalogue starts as the empty list (line 55), which both failure
branches restore. -/
def load_catalogue (file : Option (Option Json)) : Json :=
  match file with
  | none => Json.arr []
  | some none => Json.arr []
  | some (some j) => j

/-- Models Marketplace.list_available (lines 69-71): returns self.catalogue
as loaded. -/
def list_available (file : Option (Option Json)) : Json :=
  load_catalogue file

/-- Models Marketplace.list_installed (lines 73-95): scan the entries of
the install root in iteration order; keep directories whose manifest.json
is a file that json.load parses to a dict (any exception — missing file,
IsADirectoryError, JSONDecodeError, AttributeError from meta.get — is
swallowed by the except at line 93 or the exists check at line 81). -/
def list_installed (root : List (String × FSTree)) : List PluginMetadata :=
  root.filterMap fun e =>
    match e.2 with
    | .file _ => none
    | .dir cs =>
      match lookupChild cs "manifest.json" with
      | some (.file fd) =>
        match fd.asJson with
        | some (.obj fields) =>
          some ⟨Json.getD fields "name" (.str e.1),
                Json.getD fields "version" (.str "0.0.0"),
                Json.getD fields "description" (.str ""),
                e.1⟩
        | _ => none
      | _ => none

/-- Models marketplace.py lines 133-144: after placement, require
manifest.json at the plugin root (named dirName, with children cs), parse
it and build the metadata with the defaults of lines 140-142. The second
component is the install-root state, unchanged by this step. -/
def finishManifest (root : List (String × FSTree)) (dirName : String)
    (cs : List (String × FSTree)) :
    Except MarketError PluginMetadata × List (String × FSTree) :=
  match lookupChild cs "manifest.json" with
  | none => (.error .invalidPlugin, root)
  | some (.dir _) => (.error .manifestIsDir, root)
  | some (.file fd) =>
    match fd.asJson with
    | none => (.error .manifestDecode, root)
    | some (.obj fields) =>
      (.ok ⟨Json.getD fields "name" (.str dirName),
            Json.getD fields "version" (.str "0.0.0"),
            Json.getD fields "description" (.str ""),
            dirName⟩, root)
    | some _ => (.error .manifestNotDict, root)

/-- Models zipfile extractall into a scratch directory that already has
content: same-named entries are overwritten. (extractall merges nested
directories recursively; the model merges at the top level only. Every
theorem below assumes the scratch directory is initially absent, in which
case this function is never reached.) -/
def mergeShallow (old new : List (String × FSTree)) : List (String × FSTree) :=
  new.foldl (fun acc e => setChild acc e.1 e.2) old

/-- Models marketplace.py lines 112-124, after extraction filled the
scratch directory (named tmpName, already placed in root1 with content
tmpContent): compute the top-level directory candidates, pick the plugin
root, remove any blocking destination, move, and remove the scratch
directory. When the candidate count differs from one, extracted_root is
the scratch directory itself, so dest == tmpdir: line 121 removes the
freshly extracted scratch directory and shutil.move at line 122 then
raises FileNotFoundError. The same happens when the single candidate is
itself named tmpName. -/
def installZipMove (root1 : List (String × FSTree)) (tmpName : String)
    (tmpContent : List (String × FSTree)) :
    Except MarketError PluginMetadata × List (String × FSTree) :=
  match tmpContent.filter (fun e => e.2.isDir) with
  | [e0] =>
    if e0.1 = tmpName then
      (.error .moveSourceMissing, eraseChild root1 tmpName)
    else
      match lookupChild root1 e0.1 with
      | some (.file _) => (.error .destBlockedByFile, root1)
      | _ =>
        let root2 := eraseChild root1 e0.1
        let root3 := setChild (setChild root2 tmpName (.dir (eraseChild tmpContent e0.1)))
                        e0.1 e0.2
        let root4 := eraseChild root3 tmpName
        finishManifest root4 e0.1 e0.2.childrenD
  | _ =>
    (.error .moveSourceMissing, eraseChild root1 tmpName)

/-- Models marketplace.py lines 109-111 once the scratch content is known:
place the scratch directory in the install root and continue. -/
def installZipExtracted (root : List (String × FSTree)) (stem : String)
    (tmpContent : List (String × FSTree)) :
    Except MarketError PluginMetadata × List (String × FSTree) :=
  installZipMove (setChild root (stem ++ "_tmp") (.dir tmpContent))
    (stem ++ "_tmp") tmpContent

/-- Models the zip branch of Marketplace.install (lines 105-124). The
scratch directory is install_dir / (stem + "_tmp"); mkdir with
exist_ok=True tolerates an existing directory (extractall then merges into
it) but raises over a plain file. -/
def installZip (root : List (String × FSTree)) (stem : String)
    (entries : List (String × FSTree)) :
    Except MarketError PluginMetadata × List (String × FSTree) :=
  match lookupChild root (stem ++ "_tmp") with
  | some (.file _) => (.error .scratchBlockedByFile, root)
  | some (.dir old) => installZipExtracted root stem (mergeShallow old entries)
  | none => installZipExtracted root stem entries

/-- Models Marketplace.install (lines 97-144) on the classified source.
For a directory source, lines 126-129: remove any existing destination
(rmtree of a plain file raises NotADirectoryError) and copy the source
under its own name, then read the manifest. -/
def install (root : List (String × FSTree)) (src : Source) :
    Except MarketError PluginMetadata × List (String × FSTree) :=
  match src with
  | .missing => (.error .sourceNotFound, root)
  | .plainFile _ => (.error .invalidSource, root)
  | .zipArchive stem entries => installZip root stem entries
  | .directory name children =>
    match lookupChild root name with
    | some (.file _) => (.error .destBlockedByFile, root)
    | _ => finishManifest (setChild root name (.dir children)) name children

/-- Models Marketplace.uninstall (lines 146-152). dest is
install_dir / plugin_name; pathlib drops an empty component, so the empty
name resolves dest to the install root itself, which the constructor
(line 48) guarantees exists as a directory — rmtree then deletes the whole
install root, modelled by the state none. -/
def uninstall (root : List (String × FSTree)) (name : String) :
    Bool × Option (List (String × FSTree)) :=
  if name = "" then
    (true, none)
  else
    match lookupChild root name with
    | some (.dir _) => (true, some (eraseChild root name))
    | _ => (false, some root)

/-- str(install_dir / name): pathlib drops the empty component. -/
def joinPath (base name : String) : String :=
  if name = "" then base else base ++ "/" ++ name

/-- Models Marketplace.test (lines 154-180) together with the sys.path
side effect. base is str(self.install_dir); sysPath is sys.path at entry.
The two existence checks (lines 157, 161) precede the sys.path insert at
line 164; the finally at lines 178-180 rebuilds sys.path without any entry
equal to str(plugin_dir) on every exit of the try block. Path.exists is
true for a plain file as well, so a file named like the plugin passes the
first check and fails the plugin.py check. -/
def test (base : String) (root : List (String × FSTree)) (name : String)
    (sysPath : List String) : Except MarketError Bool × List String :=
  let pluginDir := joinPath base name
  let entry : Option FSTree :=
    if name = "" then some (.dir root) else lookupChild root name
  match entry with
  | none => (.error .notInstalled, sysPath)
  | some t =>
    let pluginPy : Option FSTree :=
      match t with
      | .dir cs => lookupChild cs "plugin.py"
      | .file _ => none
    match pluginPy with
    | none => (.error .missingEntryPoint, sysPath)
    | some pf =>
      let paths := pluginDir :: sysPath
      let result : Except MarketError Bool :=
        match pf with
        | .dir _ => .error .loadError
        | .file fd =>
          match fd.py with
          | .loadFails => .error .loadError
          | .noRunTest => .error .contractViolation
          | .runTestRaises => .error .pluginRaised
          | .returns v => .ok (pyBool v)
      (result, paths.filter (fun p => p != pluginDir))

end Marketplace

/-- Python str.lower on the character list of a string; the model covers
the ASCII case mapping. -/
def lowerChars (l : List Char) : List Char :=
  l.map Char.toLower

/-- Check that the second list is an initial segment of the first. -/
def startsWithL : List Char → List Char → Bool
  | _, [] => true
  | [], _ :: _ => false
  | a :: s, b :: p => a == b && startsWithL s p

/-- Python substring membership pat in s on character lists. -/
def hasSub : List Char → List Char → Bool
  | [], pat => pat.isEmpty
  | a :: s, pat => startsWithL (a :: s) pat || hasSub s pat

/-- Models the per-entry condition of the search command (cli.py line 103)
with Python evaluation order: p.get("name", "").lower() raises
AttributeError when the stored value is not a string, and the description
side is only evaluated when the name side did not already match. kl is the
lowered keyword. -/
def entryMatches (kl : List Char) (p : List (String × Json)) :
    Except MarketError Bool :=
  match Json.getD p "name" (.str "") with
  | .str nm =>
    if hasSub (lowerChars nm.data) kl then .ok true
    else
      match Json.getD p "description" (.str "") with
      | .str ds => .ok (hasSub (lowerChars ds.data) kl)
      | _ => .error .lowerOnNonString
  | _ => .error .lowerOnNonString

/-- Models the list comprehension of cli.py line 103: entries are examined
left to right and the first AttributeError aborts the whole search. -/
def searchFilter (kl : List Char) :
    List (List (String × Json)) → Except MarketError (List (List (String × Json)))
  | [] => .ok []
  | p :: rest =>
    match entryMatches kl p with
    | .error e => .error e
    | .ok b =>
      match searchFilter kl rest with
      | .error e => .error e
      | .ok tail => .ok (if b then p :: tail else tail)

/-- Models the search command (cli.py lines 97-109) on a catalogue that is
a list of parsed objects: lower the keyword once, then filter. -/
def Marketplace.search (catalogue : List (List (String × Json))) (keyword : String) :
    Except MarketError (List (List (String × Json))) :=
  searchFilter (lowerChars keyword.data) catalogue

/-- Field of a catalogue entry as a string, with the empty-string default
of cli.py line 103 for an absent field. Used only on entries whose stored
field values are strings. -/
def strFieldD (p : List (String × Json)) (key : String) : String :=
  match Json.getD p key (.str "") with
  | .str s => s
  | _ => ""

/-- Decidable form of the spec predicate: the keyword is a case-insensitive
substring of the name or of the description. -/
def specMatchB (kw : String) (p : List (String × Json)) : Bool :=
  hasSub (lowerChars (strFieldD p "name").data) (lowerChars kw.data)
    || hasSub (lowerChars (strFieldD p "description").data) (lowerChars kw.data)

/-- Spec wording of case-insensitive substring containment: the lowered
keyword occurs contiguously inside the lowered string. -/
def ciSubstrOf (kw s : String) : Prop :=
  ∃ pre post, lowerChars s.data = pre ++ lowerChars kw.data ++ post

/-- Modelled from the claim wording for uninstall: report success and
delete exactly when the directory install_root / name exists (the empty
name resolves to the install root itself, which exists as a directory);
otherwise report failure and leave the install root unchanged. -/
def dirExistsAt (root : List (String × FSTree)) (name : String) : Bool :=
  if name = "" then true
  else
    match lookupChild root name with
    | some (.dir _) => true
    | _ => false

/-- State after deleting install_root / name: deleting the empty name
removes the install root itself. -/
def removeDirAt (root : List (String × FSTree)) (name : String) :
    Option (List (String × FSTree)) :=
  if name = "" then none else some (eraseChild root name)

/-- Claim-side description of uninstall, assembled from the spec words. -/
def uninstallSpec (root : List (String × FSTree)) (name : String) :
    Bool × Option (List (String × FSTree)) :=
  if dirExistsAt root name then (true, removeDirAt root name)
  else (false, some root)

/-! Association-list lemmas about the filesystem model. -/

theorem lookupChild_nil (n : String) : lookupChild [] n = none := rfl

theorem lookupChild_cons (e : String × FSTree) (rest : List (String × FSTree)) (n : String) :
    lookupChild (e :: rest) n = if e.1 = n then some e.2 else lookupChild rest n := rfl

theorem eraseChild_of_lookup_none {cs : List (String × FSTree)} {n : String}
    (h : lookupChild cs n = none) : eraseChild cs n = cs := by
  induction cs with
  | nil => rfl
  | cons e rest ih =>
    rw [lookupChild_cons] at h
    by_cases he : e.1 = n
    · simp [he] at h
    · simp only [he, if_false] at h
      have h2 := ih h
      simp only [eraseChild, List.filter_cons] at h2 ⊢
      simp [he, h2]

theorem eraseChild_append (xs ys : List (String × FSTree)) (n : String) :
    eraseChild (xs ++ ys) n = eraseChild xs n ++ eraseChild ys n := by
  simp [eraseChild, List.filter_append]

theorem eraseChild_singleton_self (n : String) (t : FSTree) :
    eraseChild [(n, t)] n = [] := by
  simp [eraseChild, List.filter_cons]

theorem eraseChild_singleton_ne {m n : String} (t : FSTree) (h : m ≠ n) :
    eraseChild [(m, t)] n = [(m, t)] := by
  simp [eraseChild, List.filter_cons, h]

theorem eraseChild_eraseChild (cs : List (String × FSTree)) (n : String) :
    eraseChild (eraseChild cs n) n = eraseChild cs n := by
  simp [eraseChild, List.filter_filter]

theorem lookupChild_eraseChild_of_none {cs : List (String × FSTree)} {m : String}
    (n : String) (h : lookupChild cs m = none) :
    lookupChild (eraseChild cs n) m = none := by
  induction cs with
  | nil => rfl
  | cons e rest ih =>
    rw [lookupChild_cons] at h
    by_cases he : e.1 = m
    · simp [he] at h
    · simp only [he, if_false] at h
      by_cases hn : e.1 = n
      · simpa [eraseChild, List.filter_cons, hn] using ih h
      · simpa [eraseChild, List.filter_cons, hn, lookupChild_cons, he] using ih h

theorem lookupChild_eraseChild_self (cs : List (String × FSTree)) (n : String) :
    lookupChild (eraseChild cs n) n = none := by
  induction cs with
  | nil => rfl
  | cons e rest ih =>
    by_cases hn : e.1 = n
    · simpa [eraseChild, List.filter_cons, hn] using ih
    · simpa [eraseChild, List.filter_cons, hn, lookupChild_cons] using ih

theorem lookupChild_append_of_none {xs : List (String × FSTree)} {n : String}
    (ys : List (String × FSTree)) (h : lookupChild xs n = none) :
    lookupChild (xs ++ ys) n = lookupChild ys n := by
  induction xs with
  | nil => rfl
  | cons e rest ih =>
    rw [lookupChild_cons] at h
    by_cases he : e.1 = n
    · simp [he] at h
    · simp only [he, if_false] at h
      simpa [lookupChild_cons, he] using ih h

theorem lookupChild_setChild_self (cs : List (String × FSTree)) (n : String) (t : FSTree) :
    lookupChild (setChild cs n t) n = some t := by
  rw [setChild, lookupChild_append_of_none _ (lookupChild_eraseChild_self cs n)]
  simp [lookupChild_cons]

theorem countChild_eraseChild (cs : List (String × FSTree)) (n : String) :
    countChild (eraseChild cs n) n = 0 := by
  simp only [countChild, eraseChild, List.filter_filter, List.length_eq_zero]
  apply List.filter_eq_nil_iff.mpr
  intro e _
  simp [bne]

theorem countChild_setChild (cs : List (String × FSTree)) (n : String) (t : FSTree) :
    countChild (setChild cs n t) n = 1 := by
  have h0 := countChild_eraseChild cs n
  simp only [countChild, setChild, List.filter_append] at *
  simp [List.filter_cons, List.length_append, h0]

theorem lookupChild_append_singleton_ne {m n : String} (xs : List (String × FSTree))
    (t : FSTree) (h : m ≠ n) :
    lookupChild (xs ++ [(m, t)]) n = lookupChild xs n := by
  induction xs with
  | nil => simp [lookupChild_cons, h]
  | cons e rest ih => simp [lookupChild_cons, ih]

theorem setChild_fresh {cs : List (String × FSTree)} {n : String} (t : FSTree)
    (h : lookupChild cs n = none) : setChild cs n t = cs ++ [(n, t)] := by
  rw [setChild, eraseChild_of_lookup_none h]

/-! Reduction lemmas for the install branches. -/

theorem finishManifest_snd (r : List (String × FSTree)) (n : String)
    (cs : List (String × FSTree)) :
    (Marketplace.finishManifest r n cs).snd = r := by
  unfold Marketplace.finishManifest
  split
  · rfl
  · rfl
  · split <;> rfl

theorem finishManifest_ok {cs : List (String × FSTree)} {fd : FileData}
    {fields : List (String × Json)} (r : List (String × FSTree)) (n : String)
    (hm : lookupChild cs "manifest.json" = some (.file fd))
    (hj : fd.asJson = some (.obj fields)) :
    Marketplace.finishManifest r n cs =
      (.ok ⟨Json.getD fields "name" (.str n), Json.getD fields "version" (.str "0.0.0"),
            Json.getD fields "description" (.str ""), n⟩, r) := by
  simp only [Marketplace.finishManifest, hm, hj]

theorem finishManifest_missing {cs : List (String × FSTree)}
    (r : List (String × FSTree)) (n : String)
    (hm : lookupChild cs "manifest.json" = none) :
    Marketplace.finishManifest r n cs = (.error .invalidPlugin, r) := by
  simp only [Marketplace.finishManifest, hm]

theorem install_dir_eq {root : List (String × FSTree)} {name : String}
    (children : List (String × FSTree))
    (h : ∀ d, lookupChild root name ≠ some (.file d)) :
    Marketplace.install root (.directory name children)
      = Marketplace.finishManifest (setChild root name (.dir children)) name children := by
  show (match lookupChild root name with
        | some (.file _) => ((.error .destBlockedByFile : Except MarketError PluginMetadata), root)
        | _ => Marketplace.finishManifest (setChild root name (.dir children)) name children)
      = Marketplace.finishManifest (setChild root name (.dir children)) name children
  cases hl : lookupChild root name with
  | none => rfl
  | some t =>
    cases t with
    | file d => exact absurd hl (h d)
    | dir cs2 => rfl

theorem installZip_fresh {root : List (String × FSTree)} {stem : String}
    (entries : List (String × FSTree))
    (h : lookupChild root (stem ++ "_tmp") = none) :
    Marketplace.installZip root stem entries
      = Marketplace.installZipExtracted root stem entries := by
  unfold Marketplace.installZip
  rw [h]

theorem installZipMove_single {tmpContent : List (String × FSTree)} {n0 : String}
    {t0 : FSTree} (root1 : List (String × FSTree)) (tmpName : String)
    (hc : tmpContent.filter (fun e => e.2.isDir) = [(n0, t0)])
    (hne : n0 ≠ tmpName)
    (hnf : ∀ d, lookupChild root1 n0 ≠ some (.file d)) :
    Marketplace.installZipMove root1 tmpName tmpContent
      = Marketplace.finishManifest
          (eraseChild (setChild (setChild (eraseChild root1 n0) tmpName
              (.dir (eraseChild tmpContent n0))) n0 t0) tmpName)
          n0 t0.childrenD := by
  unfold Marketplace.installZipMove
  rw [hc]
  dsimp only
  rw [if_neg hne]
  cases hl : lookupChild root1 n0 with
  | none => rfl
  | some t =>
    cases t with
    | file d => exact absurd hl (hnf d)
    | dir cs2 => rfl

theorem zipState_eq {root : List (String × FSTree)} {tmp n0 : String}
    (entries : List (String × FSTree)) (t0 B : FSTree)
    (htmp : lookupChild root tmp = none) (hne : n0 ≠ tmp) :
    eraseChild (setChild (setChild (eraseChild (setChild root tmp (.dir entries)) n0)
        tmp B) n0 t0) tmp
      = eraseChild root n0 ++ [(n0, t0)] := by
  have hne' : tmp ≠ n0 := fun h => hne h.symm
  have h3 : eraseChild (eraseChild root n0) tmp = eraseChild root n0 :=
    eraseChild_of_lookup_none (lookupChild_eraseChild_of_none n0 htmp)
  simp only [setChild, eraseChild_append, eraseChild_of_lookup_none htmp,
    eraseChild_eraseChild, h3, eraseChild_singleton_self,
    eraseChild_singleton_ne _ hne', eraseChild_singleton_ne _ hne,
    List.append_nil, List.nil_append, List.append_assoc]

theorem installZip_single {root entries : List (String × FSTree)} {n0 : String}
    {t0 : FSTree} (stem : String)
    (h1 : lookupChild root (stem ++ "_tmp") = none)
    (hc : entries.filter (fun e => e.2.isDir) = [(n0, t0)])
    (hne : n0 ≠ stem ++ "_tmp")
    (hnf : ∀ d, lookupChild root n0 ≠ some (.file d)) :
    Marketplace.install root (.zipArchive stem entries)
      = Marketplace.finishManifest (eraseChild root n0 ++ [(n0, t0)]) n0 t0.childrenD := by
  have hnf1 : ∀ d, lookupChild (setChild root (stem ++ "_tmp") (.dir entries)) n0
      ≠ some (.file d) := by
    intro d
    rw [setChild_fresh _ h1,
        lookupChild_append_singleton_ne _ _ (fun hh => hne hh.symm)]
    exact hnf d
  have e1 : Marketplace.install root (.zipArchive stem entries)
      = Marketplace.installZip root stem entries := rfl
  rw [e1, installZip_fresh entries h1]
  unfold Marketplace.installZipExtracted
  rw [installZipMove_single _ _ hc hne hnf1, zipState_eq entries t0 _ h1 hne]

theorem installZip_flat {root entries : List (String × FSTree)} (stem : String)
    (h1 : lookupChild root (stem ++ "_tmp") = none)
    (hc : (entries.filter (fun e => e.2.isDir)).length ≠ 1) :
    Marketplace.install root (.zipArchive stem entries)
      = (.error .moveSourceMissing, root) := by
  have e1 : Marketplace.install root (.zipArchive stem entries)
      = Marketplace.installZip root stem entries := rfl
  have hstate : eraseChild (setChild root (stem ++ "_tmp") (.dir entries)) (stem ++ "_tmp")
      = root := by
    rw [setChild_fresh _ h1, eraseChild_append, eraseChild_of_lookup_none h1,
        eraseChild_singleton_self, List.append_nil]
  rw [e1, installZip_fresh entries h1]
  unfold Marketplace.installZipExtracted Marketplace.installZipMove
  cases hf : entries.filter (fun e => e.2.isDir) with
  | nil => rw [hstate]
  | cons a rest =>
    cases rest with
    | nil => exact absurd (by rw [hf]; rfl) hc
    | cons b rest2 => rw [hstate]

/-! Substring lemmas connecting the executable search predicate with the
spec wording. -/

theorem startsWithL_iff : ∀ s p : List Char, startsWithL s p = true ↔ ∃ t, s = p ++ t
  | s, [] => by simp [startsWithL]
  | [], b :: p => by simp [startsWithL]
  | a :: s, b :: p => by
    simp only [startsWithL, Bool.and_eq_true, beq_iff_eq, startsWithL_iff s p,
      List.cons_append, List.cons.injEq]
    constructor
    · rintro ⟨h1, t, h2⟩
      exact ⟨t, h1, h2⟩
    · rintro ⟨t, h1, h2⟩
      exact ⟨h1, t, h2⟩

theorem hasSub_iff : ∀ s pat : List Char, hasSub s pat = true ↔ ∃ pre post, s = pre ++ pat ++ post
  | [], pat => by
    rw [hasSub]
    constructor
    · intro h
      have hp : pat = [] := by
        cases pat with
        | nil => rfl
        | cons x xs => simp [List.isEmpty] at h
      subst hp
      exact ⟨[], [], rfl⟩
    · rintro ⟨pre, post, h⟩
      replace h := h.symm
      rw [List.append_eq_nil] at h
      rcases h with ⟨h12, h3⟩
      rw [List.append_eq_nil] at h12
      rcases h12 with ⟨h1, h2⟩
      subst h2
      rfl
  | a :: s, pat => by
    rw [hasSub]
    simp only [Bool.or_eq_true, startsWithL_iff (a :: s) pat, hasSub_iff s pat]
    constructor
    · rintro (⟨t, ht⟩ | ⟨pre, post, h⟩)
      · exact ⟨[], t, by simpa using ht⟩
      · exact ⟨a :: pre, post, by rw [List.cons_append, List.cons_append, h]⟩
    · rintro ⟨pre, post, h⟩
      cases pre with
      | nil => exact Or.inl ⟨post, by simpa using h⟩
      | cons x pre2 =>
        rw [List.cons_append, List.cons_append, List.cons.injEq] at h
        exact Or.inr ⟨pre2, post, h.2⟩

/-! Claims. -/

/-- C6: catalogue loading is total. A missing catalogue file and a file
whose text json.load cannot parse both yield the empty available list,
while a successfully parsed catalogue is returned by list_available
exactly as parsed — in particular in declaration order, with no
deduplication or filtering. -/
theorem catalogue_load_total (file : Option (Option Json)) :
    (file = none → Marketplace.list_available file = Json.arr [])
    ∧ (file = some none → Marketplace.list_available file = Json.arr [])
    ∧ (∀ j, file = some (some j) → Marketplace.list_available file = j) := by
  refine ⟨fun h => ?_, fun h => ?_, fun j h => ?_⟩ <;> subst h <;> rfl

/-- Witness for catalogue_load_total at concrete catalogue files. -/
theorem catalogue_load_total_witness :
    Marketplace.list_available none = Json.arr []
    ∧ Marketplace.list_available (some none) = Json.arr []
    ∧ Marketplace.list_available (some (some (Json.arr [Json.num 1, Json.num 2])))
        = Json.arr [Json.num 1, Json.num 2] :=
  ⟨(catalogue_load_total none).1 rfl,
   (catalogue_load_total (some none)).2.1 rfl,
   (catalogue_load_total (some (some (Json.arr [Json.num 1, Json.num 2])))).2.2 _ rfl⟩

/-- C10: uninstall with the empty plugin name resolves the target to the
install root itself (path joining drops the empty component, as joinPath
records) and, since the constructor guarantees the install root exists as
a directory, deletes the entire install root — every installed plugin —
and returns True. -/
theorem uninstall_empty_name_deletes_root (root : List (String × FSTree)) (base : String) :
    Marketplace.uninstall root "" = (true, none) ∧ Marketplace.joinPath base "" = base :=
  ⟨rfl, rfl⟩

/-- C5: uninstall reports success and recursively deletes the directory
install_root/name exactly when that directory exists (exact,
case-sensitive directory-name match; the empty name resolves to the
install root, which exists), and otherwise reports failure without an
error and without modifying the install root. -/
theorem uninstall_matches_spec (root : List (String × FSTree)) (name : String) :
    Marketplace.uninstall root name = uninstallSpec root name := by
  unfold Marketplace.uninstall uninstallSpec dirExistsAt removeDirAt
  by_cases h : name = ""
  · simp [h]
  · simp only [h, if_false]
    cases hl : lookupChild root name with
    | none => simp
    | some t =>
      cases t with
      | file d => simp
      | dir cs => simp

/-- C2 at its failing input: a zip archive without a wrapping top-level
directory — here foo.zip holding manifest.json and plugin.py directly —
makes install compute the destination equal to the scratch directory,
delete the freshly extracted content and then fail in shutil.move with
FileNotFoundError; nothing is installed and nothing is listed even though
the archive carries a parseable manifest. -/
theorem flat_zip_install_crashes :
    Marketplace.install []
        (.zipArchive "foo"
          [("manifest.json",
            .file ⟨some (Json.obj [("name", Json.str "foo"), ("version", Json.str "1.0"),
                                   ("description", Json.str "demo")]), .loadFails⟩),
           ("plugin.py", .file ⟨none, .returns (.vBool true)⟩)])
      = (.error .moveSourceMissing, [])
    ∧ Marketplace.list_installed [] = [] :=
  ⟨rfl, rfl⟩

/-- C1 (counterexample): for archives with a single wrapping top-level
directory the installed name is the wrapping directory name, taken
verbatim: archives foo.zip and quux.zip with identical content both
install under bar, and bar differs from both stems, so the installed name
is not derived from the archive stem. -/
theorem zip_install_names_not_from_stem :
    (Marketplace.install []
        (.zipArchive "foo"
          [("bar", .dir [("manifest.json", .file ⟨some (Json.obj []), .loadFails⟩)])])).snd
      = [("bar", FSTree.dir [("manifest.json", FSTree.file ⟨some (Json.obj []), .loadFails⟩)])]
    ∧ (Marketplace.install []
        (.zipArchive "quux"
          [("bar", .dir [("manifest.json", .file ⟨some (Json.obj []), .loadFails⟩)])])).snd
      = [("bar", FSTree.dir [("manifest.json", FSTree.file ⟨some (Json.obj []), .loadFails⟩)])]
    ∧ (Marketplace.install []
        (.zipArchive "foo"
          [("bar", .dir [("manifest.json", .file ⟨some (Json.obj []), .loadFails⟩)])])).fst
      = Except.ok ⟨Json.str "bar", Json.str "0.0.0", Json.str "", "bar"⟩
    ∧ ("bar" : String) ≠ "foo" ∧ ("bar" : String) ≠ "quux" :=
  ⟨rfl, rfl, rfl, by decide, by decide⟩

/-- C9: on every exit path of test — not installed, missing plugin.py,
load failure, missing run_test, an exception raised by run_test, or a
normal return — the plugin directory string that the call inserts into the
module search path is absent from the search path afterwards. Stated for
calls whose incoming search path does not already hold that string: the
finally block removes every occurrence, and the two paths that abort
before the insertion leave the search path untouched. -/
theorem test_syspath_restored (base : String) (root : List (String × FSTree))
    (name : String) (p0 : List String)
    (h : Marketplace.joinPath base name ∉ p0) :
    Marketplace.joinPath base name ∉ (Marketplace.test base root name p0).snd := by
  unfold Marketplace.test
  dsimp only
  cases he : (if name = "" then some (FSTree.dir root) else lookupChild root name) with
  | none => exact h
  | some t =>
    dsimp only
    cases hpy : (match t with
        | FSTree.dir cs => lookupChild cs "plugin.py"
        | FSTree.file _ => none) with
    | none => exact h
    | some pf =>
      intro hmem
      rw [List.mem_filter] at hmem
      simp at hmem

/-- Witness for test_syspath_restored on a plugin whose run_test returns
True and an incoming search path without the plugin directory. -/
theorem test_syspath_restored_witness :
    Marketplace.joinPath "ir" "p" ∉
      (Marketplace.test "ir"
        [("p", FSTree.dir [("plugin.py", FSTree.file ⟨none, .returns (.vBool true)⟩)])]
        "p" ["other"]).snd :=
  test_syspath_restored "ir" _ "p" ["other"] (by decide)

theorem setChild_setChild (cs : List (String × FSTree)) (n : String) (t : FSTree) :
    setChild (setChild cs n t) n t = setChild cs n t := by
  unfold setChild
  rw [eraseChild_append, eraseChild_eraseChild, eraseChild_singleton_self, List.append_nil]

/-- C8: when the placed plugin root holds no manifest.json, install fails
with the invalid-plugin error while the copied or extracted files stay in
the install directory (no rollback) — for a directory source, and for a
zip source with a single wrapping directory placed under that directory's
name. -/
theorem install_no_rollback (root : List (String × FSTree)) (name : String)
    (children : List (String × FSTree)) :
    ((∀ d, lookupChild root name ≠ some (.file d)) →
      lookupChild children "manifest.json" = none →
      Marketplace.install root (.directory name children)
        = (.error .invalidPlugin, setChild root name (.dir children))
      ∧ lookupChild (Marketplace.install root (.directory name children)).snd name
        = some (.dir children))
    ∧ (∀ stem entries t0cs,
        lookupChild root (stem ++ "_tmp") = none →
        entries.filter (fun e => e.2.isDir) = [(name, FSTree.dir t0cs)] →
        name ≠ stem ++ "_tmp" →
        (∀ d, lookupChild root name ≠ some (.file d)) →
        lookupChild t0cs "manifest.json" = none →
        Marketplace.install root (.zipArchive stem entries)
          = (.error .invalidPlugin, eraseChild root name ++ [(name, FSTree.dir t0cs)])
        ∧ lookupChild (Marketplace.install root (.zipArchive stem entries)).snd name
          = some (.dir t0cs)) := by
  constructor
  · intro hnf hm
    have hd := install_dir_eq children hnf
    have h1 : Marketplace.install root (.directory name children)
        = (.error .invalidPlugin, setChild root name (.dir children)) := by
      rw [hd, finishManifest_missing _ _ hm]
    refine ⟨h1, ?_⟩
    rw [h1]
    exact lookupChild_setChild_self root name (.dir children)
  · intro stem entries t0cs h1 hc hne hnf hm
    have hz := installZip_single stem h1 hc hne hnf
    have hch : (FSTree.dir t0cs).childrenD = t0cs := rfl
    rw [hch] at hz
    have h2 : Marketplace.install root (.zipArchive stem entries)
        = (.error .invalidPlugin, eraseChild root name ++ [(name, FSTree.dir t0cs)]) := by
      rw [hz, finishManifest_missing _ _ hm]
    refine ⟨h2, ?_⟩
    rw [h2]
    exact lookupChild_setChild_self root name (.dir t0cs)

/-- Witness for install_no_rollback: a directory source without a manifest
and a single-wrapping-directory archive without a manifest both leave the
placed files behind next to the invalid-plugin error. -/
theorem install_no_rollback_witness :
    Marketplace.install [] (.directory "p" [("plugin.py", FSTree.file ⟨none, .loadFails⟩)])
      = (.error .invalidPlugin,
         [("p", FSTree.dir [("plugin.py", FSTree.file ⟨none, .loadFails⟩)])])
    ∧ Marketplace.install []
        (.zipArchive "z" [("p", FSTree.dir [("a", FSTree.file ⟨none, .loadFails⟩)])])
      = (.error .invalidPlugin,
         [("p", FSTree.dir [("a", FSTree.file ⟨none, .loadFails⟩)])]) := by
  constructor
  · exact ((install_no_rollback [] "p" [("plugin.py", FSTree.file ⟨none, .loadFails⟩)]).1
      (fun d hh => Option.noConfusion hh) rfl).1
  · exact ((install_no_rollback [] "p" []).2 "z"
      [("p", FSTree.dir [("a", FSTree.file ⟨none, .loadFails⟩)])]
      [("a", FSTree.file ⟨none, .loadFails⟩)]
      rfl rfl (by decide) (fun d hh => Option.noConfusion hh) rfl).1

/-- C3: install of a valid directory source is idempotent on the install
root: a second identical install returns the same result and state,
exactly one entry of that name exists afterwards, it holds the content of
the latest install, and the install succeeded. -/
theorem dir_install_idempotent (root : List (String × FSTree)) (name : String)
    (children : List (String × FSTree)) (fd : FileData) (fields : List (String × Json))
    (hnf : ∀ d, lookupChild root name ≠ some (.file d))
    (hm : lookupChild children "manifest.json" = some (.file fd))
    (hj : fd.asJson = some (Json.obj fields)) :
    Marketplace.install ((Marketplace.install root (.directory name children)).snd)
        (.directory name children)
      = Marketplace.install root (.directory name children)
    ∧ countChild ((Marketplace.install root (.directory name children)).snd) name = 1
    ∧ lookupChild ((Marketplace.install root (.directory name children)).snd) name
      = some (.dir children)
    ∧ ∃ md, (Marketplace.install root (.directory name children)).fst = Except.ok md := by
  have hd := install_dir_eq children hnf
  have hr1 : (Marketplace.install root (.directory name children)).snd
      = setChild root name (.dir children) := by
    rw [hd, finishManifest_snd]
  have hl1 : lookupChild (setChild root name (.dir children)) name
      = some (.dir children) := lookupChild_setChild_self root name _
  have hnf2 : ∀ d, lookupChild ((Marketplace.install root (.directory name children)).snd)
      name ≠ some (.file d) := by
    intro d hh
    rw [hr1, hl1] at hh
    exact FSTree.noConfusion (Option.some.inj hh)
  have hd2 := install_dir_eq children hnf2
  have hset2 : setChild ((Marketplace.install root (.directory name children)).snd) name
      (.dir children) = (Marketplace.install root (.directory name children)).snd := by
    rw [hr1]
    exact setChild_setChild root name (.dir children)
  refine ⟨?_, ?_, ?_, ?_⟩
  · rw [hd2, hset2, hr1, hd]
  · rw [hr1]
    exact countChild_setChild root name _
  · rw [hr1]
    exact hl1
  · exact ⟨⟨Json.getD fields "name" (.str name), Json.getD fields "version" (.str "0.0.0"),
      Json.getD fields "description" (.str ""), name⟩,
      by rw [hd, finishManifest_ok _ _ hm hj]⟩

/-- Witness for dir_install_idempotent on a concrete valid directory
source named foo with a full manifest. -/
theorem dir_install_idempotent_witness :
    Marketplace.install
        ((Marketplace.install []
          (.directory "foo"
            [("manifest.json",
              FSTree.file ⟨some (Json.obj [("name", Json.str "foo"), ("version", Json.str "2.0"),
                ("description", Json.str "d")]), .loadFails⟩)])).snd)
        (.directory "foo"
          [("manifest.json",
            FSTree.file ⟨some (Json.obj [("name", Json.str "foo"), ("version", Json.str "2.0"),
              ("description", Json.str "d")]), .loadFails⟩)])
      = Marketplace.install []
          (.directory "foo"
            [("manifest.json",
              FSTree.file ⟨some (Json.obj [("name", Json.str "foo"), ("version", Json.str "2.0"),
                ("description", Json.str "d")]), .loadFails⟩)])
    ∧ countChild ((Marketplace.install []
          (.directory "foo"
            [("manifest.json",
              FSTree.file ⟨some (Json.obj [("name", Json.str "foo"), ("version", Json.str "2.0"),
                ("description", Json.str "d")]), .loadFails⟩)])).snd) "foo" = 1 := by
  have h := dir_install_idempotent [] "foo"
    [("manifest.json",
      FSTree.file ⟨some (Json.obj [("name", Json.str "foo"), ("version", Json.str "2.0"),
        ("description", Json.str "d")]), .loadFails⟩)]
    ⟨some (Json.obj [("name", Json.str "foo"), ("version", Json.str "2.0"),
      ("description", Json.str "d")]), .loadFails⟩
    [("name", Json.str "foo"), ("version", Json.str "2.0"), ("description", Json.str "d")]
    (fun d hh => Option.noConfusion hh) rfl rfl
  exact ⟨h.1, h.2.1⟩

theorem installZip_single_named_tmp {root entries : List (String × FSTree)}
    {t0 : FSTree} (stem : String)
    (h1 : lookupChild root (stem ++ "_tmp") = none)
    (hc : entries.filter (fun e => e.2.isDir) = [(stem ++ "_tmp", t0)]) :
    Marketplace.install root (.zipArchive stem entries)
      = (.error .moveSourceMissing, root) := by
  have e1 : Marketplace.install root (.zipArchive stem entries)
      = Marketplace.installZip root stem entries := rfl
  have hstate : eraseChild (setChild root (stem ++ "_tmp") (.dir entries)) (stem ++ "_tmp")
      = root := by
    rw [setChild_fresh _ h1, eraseChild_append, eraseChild_of_lookup_none h1,
        eraseChild_singleton_self, List.append_nil]
  rw [e1, installZip_fresh entries h1]
  unfold Marketplace.installZipExtracted Marketplace.installZipMove
  rw [hc]
  dsimp only
  rw [if_pos rfl, hstate]

theorem installZip_single_blocked {root entries : List (String × FSTree)}
    {n0 : String} {t0 : FSTree} {d : FileData} (stem : String)
    (h1 : lookupChild root (stem ++ "_tmp") = none)
    (hc : entries.filter (fun e => e.2.isDir) = [(n0, t0)])
    (hne : n0 ≠ stem ++ "_tmp")
    (hf : lookupChild root n0 = some (.file d)) :
    Marketplace.install root (.zipArchive stem entries)
      = (.error .destBlockedByFile, setChild root (stem ++ "_tmp") (.dir entries)) := by
  have e1 : Marketplace.install root (.zipArchive stem entries)
      = Marketplace.installZip root stem entries := rfl
  rw [e1, installZip_fresh entries h1]
  unfold Marketplace.installZipExtracted Marketplace.installZipMove
  rw [hc]
  dsimp only
  rw [if_neg hne]
  have hl1 : lookupChild (setChild root (stem ++ "_tmp") (.dir entries)) n0
      = some (.file d) := by
    rw [setChild_fresh _ h1,
        lookupChild_append_singleton_ne _ _ (fun hh => hne hh.symm), hf]
  rw [hl1]

/-- C1 (amended): for a zip source with a fresh scratch name, install
extracts the archive into the scratch directory
install_root/(stem + "_tmp"). When the extracted content has exactly one
top-level directory whose name differs from the scratch name and is not
blocked by a plain file of that name in the install root, that directory
is the plugin root and is moved into the install directory under the
directory's own name — not under a name derived from the archive stem —
overwriting any existing entry of that name and removing the scratch
directory; the returned metadata then uses that directory name for the
default plugin name and path. When the single top-level directory is
itself named stem + "_tmp", the computed destination coincides with the
scratch directory: the extracted tree is deleted and install fails with
the move error, leaving the install root unchanged. When a plain file of
the plugin-root name blocks the destination, rmtree of the destination
raises and install fails with the scratch directory left behind in the
install root. When there is not exactly one top-level directory, the
destination again coincides with the scratch directory, the extracted
content is deleted and install fails with the move error, leaving the
install root unchanged. -/
theorem zip_install_amended (root : List (String × FSTree)) (stem : String)
    (entries : List (String × FSTree))
    (h1 : lookupChild root (stem ++ "_tmp") = none) :
    (∀ n0 t0cs, entries.filter (fun e => e.2.isDir) = [(n0, FSTree.dir t0cs)] →
      n0 ≠ stem ++ "_tmp" → (∀ d, lookupChild root n0 ≠ some (.file d)) →
      Marketplace.install root (.zipArchive stem entries)
        = Marketplace.finishManifest (eraseChild root n0 ++ [(n0, FSTree.dir t0cs)]) n0 t0cs
      ∧ (Marketplace.install root (.zipArchive stem entries)).snd
        = setChild root n0 (.dir t0cs)
      ∧ lookupChild (Marketplace.install root (.zipArchive stem entries)).snd
          (stem ++ "_tmp") = none
      ∧ (∀ fdm fieldsm, lookupChild t0cs "manifest.json" = some (.file fdm) →
          fdm.asJson = some (.obj fieldsm) →
          (Marketplace.install root (.zipArchive stem entries)).fst
            = Except.ok ⟨Json.getD fieldsm "name" (.str n0),
                Json.getD fieldsm "version" (.str "0.0.0"),
                Json.getD fieldsm "description" (.str ""), n0⟩))
    ∧ (∀ t0, entries.filter (fun e => e.2.isDir) = [(stem ++ "_tmp", t0)] →
        Marketplace.install root (.zipArchive stem entries)
          = (.error .moveSourceMissing, root))
    ∧ (∀ n0 t0 d, entries.filter (fun e => e.2.isDir) = [(n0, t0)] →
        n0 ≠ stem ++ "_tmp" → lookupChild root n0 = some (.file d) →
        Marketplace.install root (.zipArchive stem entries)
          = (.error .destBlockedByFile, setChild root (stem ++ "_tmp") (.dir entries)))
    ∧ ((entries.filter (fun e => e.2.isDir)).length ≠ 1 →
        Marketplace.install root (.zipArchive stem entries)
          = (.error .moveSourceMissing, root)) := by
  refine ⟨?_, ?_, ?_, ?_⟩
  · intro n0 t0cs hc hne hnf
    have hz := installZip_single stem h1 hc hne hnf
    have hch : (FSTree.dir t0cs).childrenD = t0cs := rfl
    rw [hch] at hz
    refine ⟨hz, ?_, ?_, ?_⟩
    · rw [hz, finishManifest_snd]
      rfl
    · rw [hz, finishManifest_snd, lookupChild_append_singleton_ne _ _ hne]
      exact lookupChild_eraseChild_of_none n0 h1
    · intro fdm fieldsm hmm hjj
      rw [hz, finishManifest_ok _ _ hmm hjj]
  · intro t0 hc
    exact installZip_single_named_tmp stem h1 hc
  · intro n0 t0 d hc hne hf
    exact installZip_single_blocked stem h1 hc hne hf
  · intro hlen
    exact installZip_flat stem h1 hlen

/-- Witness for zip_install_amended: an archive with one wrapping
directory bar installs under bar; an archive whose single top-level
directory is named like the scratch directory fails with the move error
and an unchanged root; an archive whose wrapping directory name is taken
by a plain file fails with the blocked-destination error and the scratch
directory left behind; and an archive with no top-level directory fails
with the move error leaving the empty root unchanged. -/
theorem zip_install_amended_witness :
    (Marketplace.install []
        (.zipArchive "foo"
          [("bar", FSTree.dir [("manifest.json",
            FSTree.file ⟨some (Json.obj []), .loadFails⟩)])])).snd
      = setChild [] "bar"
          (.dir [("manifest.json", FSTree.file ⟨some (Json.obj []), .loadFails⟩)])
    ∧ Marketplace.install []
        (.zipArchive "w" [("w_tmp", FSTree.dir [("a", FSTree.file ⟨none, .loadFails⟩)])])
      = (.error .moveSourceMissing, [])
    ∧ Marketplace.install [("bar", FSTree.file ⟨none, .loadFails⟩)]
        (.zipArchive "foo" [("bar", FSTree.dir [("a", FSTree.file ⟨none, .loadFails⟩)])])
      = (.error .destBlockedByFile,
         setChild [("bar", FSTree.file ⟨none, .loadFails⟩)] "foo_tmp"
           (.dir [("bar", FSTree.dir [("a", FSTree.file ⟨none, .loadFails⟩)])]))
    ∧ Marketplace.install [] (.zipArchive "alpha" [("nota", FSTree.file ⟨none, .loadFails⟩)])
      = (.error .moveSourceMissing, []) := by
  refine ⟨?_, ?_, ?_, ?_⟩
  · exact ((zip_install_amended [] "foo"
      [("bar", FSTree.dir [("manifest.json", FSTree.file ⟨some (Json.obj []), .loadFails⟩)])]
      rfl).1 "bar"
      [("manifest.json", FSTree.file ⟨some (Json.obj []), .loadFails⟩)]
      rfl (by decide) (fun d hh => Option.noConfusion hh)).2.1
  · exact (zip_install_amended [] "w"
      [("w_tmp", FSTree.dir [("a", FSTree.file ⟨none, .loadFails⟩)])]
      rfl).2.1 (FSTree.dir [("a", FSTree.file ⟨none, .loadFails⟩)]) rfl
  · exact (zip_install_amended [("bar", FSTree.file ⟨none, .loadFails⟩)] "foo"
      [("bar", FSTree.dir [("a", FSTree.file ⟨none, .loadFails⟩)])]
      rfl).2.2.1 "bar" (FSTree.dir [("a", FSTree.file ⟨none, .loadFails⟩)])
      ⟨none, .loadFails⟩ rfl (by decide) rfl
  · exact (zip_install_amended [] "alpha" [("nota", FSTree.file ⟨none, .loadFails⟩)]
      rfl).2.2.2 (by decide)

theorem test_fst_eq (base : String) (root : List (String × FSTree)) (name : String)
    (p0 : List String) (hname : name ≠ "") :
    (Marketplace.test base root name p0).fst
      = match lookupChild root name with
        | none => .error .notInstalled
        | some (.file _) => .error .missingEntryPoint
        | some (.dir cs) =>
          match lookupChild cs "plugin.py" with
          | none => .error .missingEntryPoint
          | some (.dir _) => .error .loadError
          | some (.file fd) =>
            match fd.py with
            | .loadFails => .error .loadError
            | .noRunTest => .error .contractViolation
            | .runTestRaises => .error .pluginRaised
            | .returns v => .ok (pyBool v) := by
  unfold Marketplace.test
  dsimp only
  rw [if_neg hname]
  cases lookupChild root name with
  | none => rfl
  | some t =>
    cases t with
    | file fd => rfl
    | dir cs =>
      dsimp only
      cases lookupChild cs "plugin.py" with
      | none => rfl
      | some pf =>
        cases pf with
        | dir cs2 => rfl
        | file fd => cases fd.py <;> rfl

/-- C4 (amended): test(name) fails with the not-installed error exactly
when no entry — directory or plain file — of that name exists under the
install root (a plain file passes the exists check, so it yields the
missing-entry-point error instead); it fails with the missing-entry-point
error when the entry exists but no plugin.py file is under it; it fails
with the contract-violation error when the loaded module lacks run_test;
and on success it returns the run_test return value coerced with bool(). -/
theorem test_error_characterization (base : String) (root : List (String × FSTree))
    (name : String) (p0 : List String) (hname : name ≠ "") :
    ((Marketplace.test base root name p0).fst = .error .notInstalled
        ↔ lookupChild root name = none)
    ∧ (∀ fd, lookupChild root name = some (.file fd) →
        (Marketplace.test base root name p0).fst = .error .missingEntryPoint)
    ∧ (∀ cs, lookupChild root name = some (.dir cs) → lookupChild cs "plugin.py" = none →
        (Marketplace.test base root name p0).fst = .error .missingEntryPoint)
    ∧ (∀ cs fd, lookupChild root name = some (.dir cs) →
        lookupChild cs "plugin.py" = some (.file fd) → fd.py = .noRunTest →
        (Marketplace.test base root name p0).fst = .error .contractViolation)
    ∧ (∀ cs fd v, lookupChild root name = some (.dir cs) →
        lookupChild cs "plugin.py" = some (.file fd) → fd.py = .returns v →
        (Marketplace.test base root name p0).fst = .ok (pyBool v)) := by
  rw [test_fst_eq base root name p0 hname]
  refine ⟨?_, ?_, ?_, ?_, ?_⟩
  · cases hl : lookupChild root name with
    | none => simp
    | some t =>
      cases t with
      | file fd => simp
      | dir cs =>
        try dsimp only
        cases hp : lookupChild cs "plugin.py" with
        | none => simp
        | some pf =>
          try dsimp only
          cases pf with
          | dir cs2 => simp
          | file fd =>
            try dsimp only
            cases hq : fd.py <;> simp
  · intro fd hl
    rw [hl]
  · intro cs hl hp
    rw [hl]
    try dsimp only
    rw [hp]
  · intro cs fd hl hp hq
    rw [hl]
    try dsimp only
    rw [hp]
    try dsimp only
    rw [hq]
  · intro cs fd v hl hp hq
    rw [hl]
    try dsimp only
    rw [hp]
    try dsimp only
    rw [hq]

/-- C4 (counterexample): a plain file named p under the install root means
no installed directory p exists, yet test(p) does not fail with the
not-installed error — Path.exists accepts the file and the failure is the
missing-entry-point error. -/
theorem test_notinstalled_counterexample :
    lookupChild [("p", FSTree.file ⟨none, .loadFails⟩)] "p"
        = some (FSTree.file ⟨none, .loadFails⟩)
    ∧ (Marketplace.test "ir" [("p", FSTree.file ⟨none, .loadFails⟩)] "p" []).fst
        = .error .missingEntryPoint
    ∧ (Except.error MarketError.missingEntryPoint : Except MarketError Bool)
        ≠ Except.error MarketError.notInstalled := by
  refine ⟨rfl, rfl, fun hh => ?_⟩
  injection hh with h2
  exact MarketError.noConfusion h2

/-- Witness for test_error_characterization: an absent plugin yields the
not-installed error and a plugin whose run_test returns True tests as
True. -/
theorem test_error_characterization_witness :
    (Marketplace.test "ir" [] "p" []).fst = .error .notInstalled
    ∧ (Marketplace.test "ir"
        [("p", FSTree.dir [("plugin.py", FSTree.file ⟨none, .returns (.vBool true)⟩)])]
        "p" []).fst = .ok true := by
  constructor
  · exact ((test_error_characterization "ir" [] "p" [] (by decide)).1).mpr rfl
  · exact (test_error_characterization "ir"
      [("p", FSTree.dir [("plugin.py", FSTree.file ⟨none, .returns (.vBool true)⟩)])]
      "p" [] (by decide)).2.2.2.2 _ _ _ rfl rfl rfl

theorem entryMatches_eq {p : List (String × Json)} (kw : String)
    (hn : ∃ s, Json.getD p "name" (.str "") = .str s)
    (hd : ∃ s, Json.getD p "description" (.str "") = .str s) :
    entryMatches (lowerChars kw.data) p = .ok (specMatchB kw p) := by
  obtain ⟨ns, hns⟩ := hn
  obtain ⟨ds, hds⟩ := hd
  unfold entryMatches specMatchB strFieldD
  rw [hns, hds]
  try dsimp only
  by_cases hh : hasSub (lowerChars ns.data) (lowerChars kw.data) = true
  · rw [if_pos hh, hh]
    rfl
  · have hh2 : hasSub (lowerChars ns.data) (lowerChars kw.data) = false := by
      cases hcc : hasSub (lowerChars ns.data) (lowerChars kw.data)
      · rfl
      · exact absurd hcc hh
    rw [if_neg hh, hh2]
    rfl

theorem searchFilter_eq (kw : String) :
    ∀ cat : List (List (String × Json)),
      (∀ p ∈ cat, (∃ s, Json.getD p "name" (.str "") = .str s)
        ∧ (∃ s, Json.getD p "description" (.str "") = .str s)) →
      searchFilter (lowerChars kw.data) cat = .ok (cat.filter (specMatchB kw))
  | [], _ => rfl
  | p :: rest, h => by
    have hp := h p (List.mem_cons_self p rest)
    have hrest := searchFilter_eq kw rest (fun q hq => h q (List.mem_cons_of_mem p hq))
    unfold searchFilter
    rw [entryMatches_eq kw hp.1 hp.2, hrest, List.filter_cons]

/-- C7: for every keyword, search over a catalogue of entries whose name
and description fields are strings (or absent) returns exactly the
entries whose name or description contains the keyword case-insensitively
as a substring, in catalogue order; a keyword matching nothing yields the
empty list through the same equation, not an error. -/
theorem search_filters_catalogue (cat : List (List (String × Json))) (kw : String)
    (h : ∀ p ∈ cat, (∃ s, Json.getD p "name" (.str "") = .str s)
      ∧ (∃ s, Json.getD p "description" (.str "") = .str s)) :
    Marketplace.search cat kw = .ok (cat.filter (specMatchB kw))
    ∧ ∀ p, specMatchB kw p = true
        ↔ (ciSubstrOf kw (strFieldD p "name") ∨ ciSubstrOf kw (strFieldD p "description")) := by
  constructor
  · exact searchFilter_eq kw cat h
  · intro p
    unfold specMatchB ciSubstrOf
    rw [Bool.or_eq_true, hasSub_iff, hasSub_iff]

/-- Witness for search_filters_catalogue: the keyword ECHO matches the
echo entry case-insensitively, and the keyword zzz matches nothing. -/
theorem search_filters_catalogue_witness :
    Marketplace.search
        [[("name", Json.str "echo"), ("version", Json.str "1.0"),
          ("description", Json.str "Echo plugin")]] "ECHO"
      = .ok [[("name", Json.str "echo"), ("version", Json.str "1.0"),
          ("description", Json.str "Echo plugin")]]
    ∧ Marketplace.search
        [[("name", Json.str "echo"), ("version", Json.str "1.0"),
          ("description", Json.str "Echo plugin")]] "zzz"
      = .ok [] := by
  constructor
  · have h := (search_filters_catalogue
      [[("name", Json.str "echo"), ("version", Json.str "1.0"),
        ("description", Json.str "Echo plugin")]] "ECHO"
      (fun p hp => by
        simp only [List.mem_singleton] at hp
        subst hp
        exact ⟨⟨"echo", rfl⟩, ⟨"Echo plugin", rfl⟩⟩)).1
    rw [h]
    rfl
  · have h := (search_filters_catalogue
      [[("name", Json.str "echo"), ("version", Json.str "1.0"),
        ("description", Json.str "Echo plugin")]] "zzz"
      (fun p hp => by
        simp only [List.mem_singleton] at hp
        subst hp
        exact ⟨⟨"echo", rfl⟩, ⟨"Echo plugin", rfl⟩⟩)).1
    rw [h]
    rfl
